import Mathlib

/-!
Verification of the inventory accounting core of tradeflow-core.

The development shallowly embeds three parts of the backend:

* `src/backend/utils/inventoryService.ts` — the ledger store and mutation
  reconciler (`onInboundCreate`, `onOutboundCreate`, `onInboundDelete`,
  `onOutboundDelete`, `onInboundUpdate`, `onOutboundUpdate`) and the full
  rebuild engine (`recalculateAll`).
* `src/backend/routes/export/utils/transactionExporter.ts` — the FIFO cost
  matcher (`AnalysisQueries.calculateFIFOData`).
* `src/backend/utils/decimalCalculator.ts` — the decimal engine
  (`DecimalCalculator`).

JavaScript numbers are modelled as exact rationals (`ℚ`); the decimal engine
performs exact arithmetic at 20 significant digits over the small values in
scope, so `ℚ` is the intended idealisation.  Nullable columns are `Option`
values; JavaScript truthiness tests on strings and numbers are modelled
explicitly (`jsFalsyStr`, `jsFalsyNum`).  The database state touched by the
inventory service is the `inventoryLedger` table (a list, in insertion order)
together with the `inventory` projection table (a map from product_model to
its quantity row, `none` when the row is absent).
-/

namespace Tradeflow

/-- JavaScript truthiness of a nullable string: `!s` is true exactly for
`null`/`undefined` and the empty string. -/
def jsFalsyStr : Option String → Bool
  | none => true
  | some s => s == ""

/-- JavaScript truthiness of a nullable number: `!q` is true exactly for
`null`/`undefined` and `0`. -/
def jsFalsyNum : Option ℚ → Bool
  | none => true
  | some q => q == 0

/-- JavaScript `v || dflt` for a nullable string `v`. -/
def jsOrStr (v : Option String) (dflt : String) : String :=
  match v with
  | none => dflt
  | some s => if s == "" then dflt else s

/-- `ChangeType` from inventoryService.ts. -/
inductive ChangeType
  | INBOUND
  | OUTBOUND
  | ADJUSTMENT
deriving DecidableEq, Repr

/-- One row of the `inventoryLedger` table. -/
structure LedgerEntry where
  product_model : String
  change_qty : ℚ
  change_type : ChangeType
  reference_id : Nat
  date : String
deriving DecidableEq, Repr

/-- The `inventory` projection table: product_model to the quantity stored in
its row, `none` when no row exists for the product. -/
def Inventory : Type := String → Option ℚ

/-- The database state operated on by the inventory service. -/
structure DBState where
  ledger : List LedgerEntry
  inventory : Inventory

/-- The empty database. -/
def initState : DBState := ⟨[], fun _ => none⟩

/-- Prisma `inventory.upsert` with `update: quantity increment q` and
`create: quantity q`: if the row exists its quantity is incremented by `q`,
otherwise a row with quantity `q` (that is, `0 + q`) is created. -/
def upsertAdd (inv : Inventory) (p : String) (q : ℚ) : Inventory :=
  fun p' => if p' = p then some ((inv p).getD 0 + q) else inv p'

/-- The fields of an `inboundRecord` row used by the inventory service. -/
structure InboundRecord where
  id : Nat
  product_model : Option String
  quantity : Option ℚ
  inbound_date : Option String
deriving DecidableEq, Repr

/-- The fields of an `outboundRecord` row used by the inventory service. -/
structure OutboundRecord where
  id : Nat
  product_model : Option String
  quantity : Option ℚ
  outbound_date : Option String
deriving DecidableEq, Repr

/-- `inventoryService.onInboundCreate`.  `now` stands for
`new Date().toISOString()`. -/
def onInboundCreate (now : String) (r : InboundRecord) (s : DBState) : DBState :=
  if jsFalsyStr r.product_model || jsFalsyNum r.quantity then s
  else
    let e : LedgerEntry :=
      { product_model := r.product_model.getD ""
        change_qty := r.quantity.getD 0
        change_type := ChangeType.INBOUND
        reference_id := r.id
        date := jsOrStr r.inbound_date now }
    { ledger := s.ledger ++ [e]
      inventory := upsertAdd s.inventory e.product_model e.change_qty }

/-- `inventoryService.onOutboundCreate`: the ledger stores `-quantity` for an
outbound record, and the projection is incremented by that negative delta. -/
def onOutboundCreate (now : String) (r : OutboundRecord) (s : DBState) : DBState :=
  if jsFalsyStr r.product_model || jsFalsyNum r.quantity then s
  else
    let e : LedgerEntry :=
      { product_model := r.product_model.getD ""
        change_qty := -(r.quantity.getD 0)
        change_type := ChangeType.OUTBOUND
        reference_id := r.id
        date := jsOrStr r.outbound_date now }
    { ledger := s.ledger ++ [e]
      inventory := upsertAdd s.inventory e.product_model e.change_qty }

/-- The `where` clause `reference_id: id, change_type: k` used by the delete
handlers. -/
def matchesRef (id : Nat) (k : ChangeType) (e : LedgerEntry) : Bool :=
  e.reference_id == id && e.change_type == k

/-- `inventoryService.onInboundDelete`: for every ledger entry matching
`(reference_id, INBOUND)` the projection is decremented by the entry's
`change_qty` (upsert creating the row at `-change_qty` when absent), then the
matching entries are deleted. -/
def onInboundDelete (id : Nat) (s : DBState) : DBState :=
  let entries := s.ledger.filter (matchesRef id ChangeType.INBOUND)
  { ledger := s.ledger.filter fun e => !(matchesRef id ChangeType.INBOUND e)
    inventory :=
      entries.foldl (fun inv e => upsertAdd inv e.product_model (-e.change_qty)) s.inventory }

/-- `inventoryService.onOutboundDelete`: same revert for `OUTBOUND` entries
(whose `change_qty` is negative, so decrementing it adds the stock back). -/
def onOutboundDelete (id : Nat) (s : DBState) : DBState :=
  let entries := s.ledger.filter (matchesRef id ChangeType.OUTBOUND)
  { ledger := s.ledger.filter fun e => !(matchesRef id ChangeType.OUTBOUND e)
    inventory :=
      entries.foldl (fun inv e => upsertAdd inv e.product_model (-e.change_qty)) s.inventory }

/-- `inventoryService.onInboundUpdate` awaits `onInboundDelete(oldRecord.id)`
and then `onInboundCreate(newRecord)`.  Each of those two calls opens its own
`prisma.$transaction`; there is no surrounding transaction.  `createTxAborts`
models the second transaction failing: an aborted transaction leaves the
database as it was when that transaction began — but the first (delete)
transaction has already committed by then. -/
def onInboundUpdate (now : String) (oldR newR : InboundRecord) (createTxAborts : Bool)
    (s : DBState) : DBState :=
  let afterDelete := onInboundDelete oldR.id s
  if createTxAborts then afterDelete else onInboundCreate now newR afterDelete

/-- `inventoryService.onOutboundUpdate`, structured exactly like
`onInboundUpdate`. -/
def onOutboundUpdate (now : String) (oldR newR : OutboundRecord) (createTxAborts : Bool)
    (s : DBState) : DBState :=
  let afterDelete := onOutboundDelete oldR.id s
  if createTxAborts then afterDelete else onOutboundCreate now newR afterDelete

/-- A successful reconciler mutation (updates are the revert-then-reapply
composition with both transactions committing). -/
inductive Op
  | inCreate (r : InboundRecord)
  | outCreate (r : OutboundRecord)
  | inDelete (id : Nat)
  | outDelete (id : Nat)
  | inUpdate (oldR newR : InboundRecord)
  | outUpdate (oldR newR : OutboundRecord)
deriving DecidableEq, Repr

/-- Apply one successful reconciler mutation to the database. -/
def applyOp (now : String) (s : DBState) : Op → DBState
  | Op.inCreate r => onInboundCreate now r s
  | Op.outCreate r => onOutboundCreate now r s
  | Op.inDelete id => onInboundDelete id s
  | Op.outDelete id => onOutboundDelete id s
  | Op.inUpdate oldR newR => onInboundUpdate now oldR newR false s
  | Op.outUpdate oldR newR => onOutboundUpdate now oldR newR false s

/-- Apply a sequence of reconciler mutations in order. -/
def applyOps (now : String) (ops : List Op) (s : DBState) : DBState :=
  ops.foldl (applyOp now) s

/-- Sum of `change_qty` over the ledger entries of product `p`
(`SELECT SUM(change_qty) WHERE product_model = p`). -/
def ledgerSum (l : List LedgerEntry) (p : String) : ℚ :=
  ((l.filter fun e => e.product_model == p).map fun e => e.change_qty).sum

/-- The stored projection quantity for product `p` (zero when the row is
absent, matching `SUM` over no rows). -/
def projQty (s : DBState) (p : String) : ℚ :=
  (s.inventory p).getD 0

/-- The projection invariant: every product's stored quantity equals the sum
of its ledger deltas. -/
def Inv (s : DBState) : Prop :=
  ∀ p, projQty s p = ledgerSum s.ledger p

/-- One element of the `events` timeline built by
`inventoryService.recalculateAll`.  An inbound record with a product and a
nonzero quantity contributes its quantity, an outbound one contributes the
negated quantity; records failing the truthiness guard are skipped. -/
structure RebuildEvent where
  date : String
  type : ChangeType
  qty : ℚ
  model : String
  refId : Nat
deriving DecidableEq, Repr

/-- The event `recalculateAll` pushes for an inbound record (`none` when the
record is skipped by the `!r.product_model || !r.quantity` guard). -/
def eventOfInbound (now : String) (r : InboundRecord) : Option RebuildEvent :=
  if jsFalsyStr r.product_model || jsFalsyNum r.quantity then none
  else some
    { date := jsOrStr r.inbound_date now
      type := ChangeType.INBOUND
      qty := r.quantity.getD 0
      model := r.product_model.getD ""
      refId := r.id }

/-- The event `recalculateAll` pushes for an outbound record (quantity
negated). -/
def eventOfOutbound (now : String) (r : OutboundRecord) : Option RebuildEvent :=
  if jsFalsyStr r.product_model || jsFalsyNum r.quantity then none
  else some
    { date := jsOrStr r.outbound_date now
      type := ChangeType.OUTBOUND
      qty := -(r.quantity.getD 0)
      model := r.product_model.getD ""
      refId := r.id }

/-- The comparator `(a, b) => a.date.localeCompare(b.date)` used to sort the
rebuild timeline (a stable sort by date). -/
def eventLe (a b : RebuildEvent) : Bool :=
  a.date ≤ b.date

/-- The `totals[e.model] = (totals[e.model] || 0) + e.qty` accumulation step
of `recalculateAll`. -/
def applyEvent (t : Inventory) (e : RebuildEvent) : Inventory :=
  upsertAdd t e.model e.qty

/-- `inventoryService.recalculateAll`: clear both tables, turn every inbound
and outbound source record into a timeline event (skipping guarded records),
sort by date, insert all events as ledger rows and create one inventory row
per product carrying the accumulated total. -/
def recalculateAll (now : String) (inbounds : List InboundRecord)
    (outbounds : List OutboundRecord) : DBState :=
  let events := inbounds.filterMap (eventOfInbound now) ++
    outbounds.filterMap (eventOfOutbound now)
  let sorted := events.mergeSort eventLe
  { ledger := sorted.map fun e =>
      { product_model := e.model
        change_qty := e.qty
        change_type := e.type
        reference_id := e.refId
        date := e.date }
    inventory := sorted.foldl applyEvent (fun _ => none) }

/-- Whether an `Op` is one of the two create operations. -/
def isCreateOp : Op → Bool
  | Op.inCreate _ => true
  | Op.outCreate _ => true
  | _ => false

/-- The rebuild event corresponding to a create operation. -/
def opEvent (now : String) : Op → Option RebuildEvent
  | Op.inCreate r => eventOfInbound now r
  | Op.outCreate r => eventOfOutbound now r
  | _ => none

/-- The timeline events of product `p`. -/
def eventsFilter (es : List RebuildEvent) (p : String) : List RebuildEvent :=
  es.filter fun e => e.model == p

/-- Sum of the event quantities of product `p`. -/
def eventsSum (es : List RebuildEvent) (p : String) : ℚ :=
  ((eventsFilter es p).map fun e => e.qty).sum

namespace DecimalCalculator

/-- `DecimalCalculator.decimal(value)` from decimalCalculator.ts: null and
undefined inputs are treated as zero; otherwise the value itself (a
`Decimal.js` value is modelled as an exact rational). -/
def decimal (v : Option ℚ) : ℚ :=
  match v with
  | none => 0
  | some x => x

/-- `DecimalCalculator.add`. -/
def add (a b : Option ℚ) : ℚ :=
  decimal a + decimal b

/-- `DecimalCalculator.multiply`. -/
def multiply (a b : Option ℚ) : ℚ :=
  decimal a * decimal b

/-- `DecimalCalculator.divide`: computes `decimal(b)` first, throws the error
string `Division by zero` when it is zero, otherwise returns the exact
quotient. -/
def divide (a b : Option ℚ) : Except String ℚ :=
  if decimal b = 0 then Except.error "Division by zero"
  else Except.ok (decimal a / decimal b)

/-- `DecimalCalculator.toNumber(decimal, decimalPlaces)`:
`parseFloat(decimal.toFixed(dp))` under `ROUND_HALF_UP` — rounding half away
from zero at `dp` fractional digits. -/
def toNumber (q : ℚ) (dp : Nat) : ℚ :=
  if 0 ≤ q then (⌊q * (10 : ℚ) ^ dp + 1 / 2⌋ : ℚ) / (10 : ℚ) ^ dp
  else -((⌊-q * (10 : ℚ) ^ dp + 1 / 2⌋ : ℚ) / (10 : ℚ) ^ dp)

end DecimalCalculator

/-- An element of the per-product FIFO queue in
`AnalysisQueries.calculateFIFOData` (interface `Batch`). -/
structure Batch where
  quantity_remaining : ℚ
  unit_price : ℚ
deriving DecidableEq, Repr

/-- The columns of an `inboundRecord` row selected by the FIFO matcher, plus
the `id` and `inbound_date` the database query orders by. -/
structure FifoInboundRow where
  id : Nat
  inbound_date : Option String
  product_model : Option String
  quantity : Option ℚ
  unit_price : Option ℚ
deriving DecidableEq, Repr

/-- The columns of an `outboundRecord` row selected by the FIFO matcher. -/
structure FifoOutboundRow where
  id : Nat
  product_model : Option String
  quantity : Option ℚ
  outbound_date : Option String
  unit_price : Option ℚ
  total_price : Option ℚ
  customer_code : Option String
  customer_short_name : Option String
deriving DecidableEq, Repr

/-- The columns of a `partner` row selected by the FIFO matcher. -/
structure Partner where
  code : Option String
  short_name : Option String
  full_name : Option String
deriving DecidableEq, Repr

/-- One element of the `processedRecords` output of `calculateFIFOData`: the
spread of the outbound row plus the computed `cost_amount`, `sales_amount`
and the resolved partner fields. -/
structure ProcessedRecord where
  id : Nat
  product_model : Option String
  quantity : Option ℚ
  outbound_date : Option String
  unit_price : Option ℚ
  total_price : Option ℚ
  customer_code : Option String
  customer_short_name : Option String
  cost_amount : ℚ
  sales_amount : ℚ
  customer_full_name : Option String
  resolved_customer_code : Option String
deriving DecidableEq, Repr

/-- SQL ascending order on a nullable date column (NULLs first, as SQLite
orders them). -/
def optDateLe (a b : Option String) : Bool :=
  match a, b with
  | none, _ => true
  | some _, none => false
  | some x, some y => x ≤ y

/-- The `orderBy` key `(date asc, id asc)` used by both FIFO queries. -/
def rowKeyLe (d1 : Option String) (i1 : Nat) (d2 : Option String) (i2 : Nat) : Bool :=
  if d1 = d2 then i1 ≤ i2 else optDateLe d1 d2

/-- The inbound query of `calculateFIFOData`: all rows with `quantity > 0`,
ordered by `(inbound_date asc, id asc)`. -/
def fetchInbound (tbl : List FifoInboundRow) : List FifoInboundRow :=
  (tbl.filter fun r =>
      match r.quantity with
      | some q => decide (0 < q)
      | none => false).mergeSort
    fun a b => rowKeyLe a.inbound_date a.id b.inbound_date b.id

/-- The outbound query of `calculateFIFOData`: all rows with `quantity > 0`
and `outbound_date <= endDate`, ordered by `(outbound_date asc, id asc)`. -/
def fetchOutbound (endDate : String) (tbl : List FifoOutboundRow) : List FifoOutboundRow :=
  (tbl.filter fun r =>
      (match r.quantity with
        | some q => decide (0 < q)
        | none => false) &&
      (match r.outbound_date with
        | some d => decide (d ≤ endDate)
        | none => false)).mergeSort
    fun a b => rowKeyLe a.outbound_date a.id b.outbound_date b.id

/-- The `partnerCodeMap` / `partnerShortMap` construction: for each partner in
order, when the keying field is truthy, map it to the partner (later partners
overwrite earlier ones, as `Map.set` does). -/
def buildPartnerMap (key : Partner → Option String) (ps : List Partner) :
    String → Option Partner :=
  ps.foldl
    (fun m p =>
      match key p with
      | none => m
      | some k => if k == "" then m else fun k' => if k' == k then some p else m k')
    (fun _ => none)

/-- The `else if (customer_short_name && partnerShortMap.has(...))` fallback of
partner resolution. -/
def resolveByShort (shortMap : String → Option Partner) (sn : Option String) :
    Option Partner :=
  match sn with
  | some s => if !(s == "") && (shortMap s).isSome then shortMap s else none
  | none => none

/-- Partner resolution in `calculateFIFOData`: exact code match first, then
short-name match; `none` when both fail. -/
def resolvePartner (codeMap shortMap : String → Option Partner)
    (r : FifoOutboundRow) : Option Partner :=
  match r.customer_code with
  | some c =>
    if !(c == "") && (codeMap c).isSome then codeMap c
    else resolveByShort shortMap r.customer_short_name
  | none => resolveByShort shortMap r.customer_short_name

/-- The window test `outRecord.outbound_date! >= startDate &&
outRecord.outbound_date! <= endDate`.  A null date makes both JavaScript
relational comparisons false. -/
def isTargetB (startDate endDate : String) (r : FifoOutboundRow) : Bool :=
  match r.outbound_date with
  | some d => decide (startDate ≤ d) && decide (d ≤ endDate)
  | none => false

/-- The initial-inventory loop of `calculateFIFOData`: push one batch per
inbound row (skipping rows failing the truthiness guard) onto the row's
product queue, in query order.  `Number(unit_price)` turns a null price into
zero. -/
def seedInventory (rows : List FifoInboundRow) : String → List Batch :=
  rows.foldl
    (fun inv r =>
      if jsFalsyStr r.product_model || jsFalsyNum r.quantity then inv
      else fun m =>
        if m = r.product_model.getD "" then
          inv (r.product_model.getD "") ++ [⟨r.quantity.getD 0, r.unit_price.getD 0⟩]
        else inv m)
    (fun _ => [])

/-- The FIFO consumption `while (qtyToFulfill > 0)` loop for one outbound
record.  `track` is the value of `isTarget && partner`: cost is accumulated
(via `decimalCalc.multiply` and `decimalCalc.add`) only when it holds.  Each
iteration takes `min(batch.quantity_remaining, qtyToFulfill)` from the head
batch and pops the batch when its remainder reaches zero. -/
def consume (batches : List Batch) (need acc : ℚ) (track : Bool) : List Batch × ℚ :=
  if hneed : 0 < need then
    match batches with
    | [] => (batches, acc)
    | b :: rest =>
      if hpop : b.quantity_remaining - min b.quantity_remaining need ≤ 0 then
        consume rest (need - min b.quantity_remaining need)
          (if track then
            DecimalCalculator.add (some acc)
              (some (DecimalCalculator.multiply (some (min b.quantity_remaining need))
                (some b.unit_price)))
          else acc) track
      else
        consume ({ b with quantity_remaining :=
              b.quantity_remaining - min b.quantity_remaining need } :: rest)
          (need - min b.quantity_remaining need)
          (if track then
            DecimalCalculator.add (some acc)
              (some (DecimalCalculator.multiply (some (min b.quantity_remaining need))
                (some b.unit_price)))
          else acc) track
  else (batches, acc)
termination_by (batches.length, if 0 < need then 1 else 0)
decreasing_by
  · apply Prod.Lex.left
    simp
  · have hlt : need < b.quantity_remaining := by
      by_contra hc
      push_neg at hc
      rw [min_eq_left hc, sub_self] at hpop
      exact hpop le_rfl
    have hneg : ¬ (0 < need - min b.quantity_remaining need) := by
      rw [min_eq_right hlt.le]
      simp
    simp only [List.length_cons, hneg, if_false, hneed, if_true]
    exact Prod.Lex.right _ Nat.zero_lt_one

/-- The running state of the outbound loop of `calculateFIFOData`: the
per-product queues (`inventoryState`, empty queue for an unseen product, as
`inventoryState[model] || []` reads) and the output rows collected so far. -/
structure FifoState where
  inventoryState : String → List Batch
  processedRecords : List ProcessedRecord

/-- The body of the outbound loop of `calculateFIFOData` for one outbound
record: guard, window test, partner resolution, FIFO consumption, and —
only for an in-window record with a resolved partner — an output row with the
cost rounded to 2 decimal places and `sales_amount = Number(total_price || 0)`. -/
def processOutbound (startDate endDate : String)
    (codeMap shortMap : String → Option Partner) (st : FifoState)
    (r : FifoOutboundRow) : FifoState :=
  if jsFalsyStr r.product_model || jsFalsyNum r.quantity then st
  else
    let model := r.product_model.getD ""
    let res := consume (st.inventoryState model) (r.quantity.getD 0)
      (DecimalCalculator.decimal (some 0))
      (isTargetB startDate endDate r && (resolvePartner codeMap shortMap r).isSome)
    { inventoryState := fun m => if m = model then res.1 else st.inventoryState m
      processedRecords :=
        match resolvePartner codeMap shortMap r, isTargetB startDate endDate r with
        | some pr, true =>
          st.processedRecords ++
            [{ id := r.id
               product_model := r.product_model
               quantity := r.quantity
               outbound_date := r.outbound_date
               unit_price := r.unit_price
               total_price := r.total_price
               customer_code := r.customer_code
               customer_short_name := r.customer_short_name
               cost_amount := DecimalCalculator.toNumber res.2 2
               sales_amount := r.total_price.getD 0
               customer_full_name := pr.full_name
               resolved_customer_code := pr.code }]
        | _, _ => st.processedRecords }

/-- `AnalysisQueries.calculateFIFOData(startDate, endDate)` over the three
source tables: fetch and sort, build the partner maps, seed the per-product
queues from all inbound history, then run the outbound loop in order and
return the collected output rows. -/
def calculateFIFOData (startDate endDate : String)
    (inboundTable : List FifoInboundRow) (outboundTable : List FifoOutboundRow)
    (partners : List Partner) : List ProcessedRecord :=
  let allInbound := fetchInbound inboundTable
  let allOutbound := fetchOutbound endDate outboundTable
  let codeMap := buildPartnerMap (fun p => p.code) partners
  let shortMap := buildPartnerMap (fun p => p.short_name) partners
  let inv0 := seedInventory allInbound
  (allOutbound.foldl (processOutbound startDate endDate codeMap shortMap)
    ⟨inv0, []⟩).processedRecords

/-- Total remaining quantity across a FIFO queue. -/
def totalRemaining (batches : List Batch) : ℚ :=
  (batches.map fun b => b.quantity_remaining).sum

/-- Cost of consuming a FIFO queue entirely. -/
def batchesCost (batches : List Batch) : ℚ :=
  (batches.map fun b => b.quantity_remaining * b.unit_price).sum

theorem ledgerSum_nil (p : String) : ledgerSum [] p = 0 := rfl

theorem ledgerSum_cons (e : LedgerEntry) (l : List LedgerEntry) (p : String) :
    ledgerSum (e :: l) p =
      (if e.product_model == p then e.change_qty else 0) + ledgerSum l p := by
  by_cases h : e.product_model == p <;>
    simp [ledgerSum, List.filter_cons, h]

theorem ledgerSum_append (l₁ l₂ : List LedgerEntry) (p : String) :
    ledgerSum (l₁ ++ l₂) p = ledgerSum l₁ p + ledgerSum l₂ p := by
  simp [ledgerSum, List.filter_append]

theorem ledgerSum_single (e : LedgerEntry) (p : String) :
    ledgerSum [e] p = if e.product_model == p then e.change_qty else 0 := by
  rw [ledgerSum_cons, ledgerSum_nil, add_zero]

theorem ledgerSum_filter_split (f : LedgerEntry → Bool) (l : List LedgerEntry) (p : String) :
    ledgerSum (l.filter f) p + ledgerSum (l.filter fun e => !(f e)) p = ledgerSum l p := by
  induction l with
  | nil => simp [ledgerSum_nil]
  | cons e rest ih =>
    by_cases h : f e <;>
      simp only [List.filter_cons, h, Bool.not_true, Bool.not_false, if_pos, if_neg,
        Bool.false_eq_true, not_false_eq_true, ite_true, ite_false, ledgerSum_cons] <;>
      linarith [ih]

theorem upsertAdd_getD (inv : Inventory) (pm : String) (q : ℚ) (p : String) :
    ((upsertAdd inv pm q) p).getD 0 =
      (inv p).getD 0 + (if pm == p then q else 0) := by
  by_cases h : p = pm
  · subst h
    simp [upsertAdd]
  · have h' : ¬ (pm == p) = true := by
      simp only [beq_iff_eq]
      exact fun hc => h hc.symm
    simp [upsertAdd, h, h']

theorem foldl_revert_getD (entries : List LedgerEntry) (inv : Inventory) (p : String) :
    ((entries.foldl (fun i e => upsertAdd i e.product_model (-e.change_qty)) inv) p).getD 0 =
      (inv p).getD 0 - ledgerSum entries p := by
  induction entries generalizing inv with
  | nil => simp [ledgerSum_nil]
  | cons e rest ih =>
    rw [List.foldl_cons, ih, upsertAdd_getD, ledgerSum_cons]
    by_cases h : e.product_model == p <;> simp [h] <;> ring

theorem inv_append_entry {s : DBState} (h : Inv s) (e : LedgerEntry) :
    Inv ⟨s.ledger ++ [e], upsertAdd s.inventory e.product_model e.change_qty⟩ := by
  intro p
  have hq : projQty ⟨s.ledger ++ [e], upsertAdd s.inventory e.product_model e.change_qty⟩ p =
      (s.inventory p).getD 0 + (if e.product_model == p then e.change_qty else 0) :=
    upsertAdd_getD s.inventory e.product_model e.change_qty p
  rw [hq, ledgerSum_append, ledgerSum_single]
  have := h p
  rw [projQty] at this
  rw [this]

theorem inv_onInboundCreate {s : DBState} (h : Inv s) (now : String) (r : InboundRecord) :
    Inv (onInboundCreate now r s) := by
  rw [onInboundCreate]
  split
  · exact h
  · exact inv_append_entry h _

theorem inv_onOutboundCreate {s : DBState} (h : Inv s) (now : String) (r : OutboundRecord) :
    Inv (onOutboundCreate now r s) := by
  rw [onOutboundCreate]
  split
  · exact h
  · exact inv_append_entry h _

theorem inv_revert {s : DBState} (h : Inv s) (id : Nat) (k : ChangeType) :
    Inv { ledger := s.ledger.filter fun e => !(matchesRef id k e)
          inventory := (s.ledger.filter (matchesRef id k)).foldl
            (fun inv e => upsertAdd inv e.product_model (-e.change_qty)) s.inventory } := by
  intro p
  have hq := foldl_revert_getD (s.ledger.filter (matchesRef id k)) s.inventory p
  have hsplit := ledgerSum_filter_split (matchesRef id k) s.ledger p
  have hp := h p
  rw [projQty] at hp ⊢
  simp only at hq ⊢
  rw [hq, hp]
  linarith

theorem inv_onInboundDelete {s : DBState} (h : Inv s) (id : Nat) :
    Inv (onInboundDelete id s) :=
  inv_revert h id ChangeType.INBOUND

theorem inv_onOutboundDelete {s : DBState} (h : Inv s) (id : Nat) :
    Inv (onOutboundDelete id s) :=
  inv_revert h id ChangeType.OUTBOUND

theorem inv_applyOp {s : DBState} (h : Inv s) (now : String) (op : Op) :
    Inv (applyOp now s op) := by
  cases op with
  | inCreate r => exact inv_onInboundCreate h now r
  | outCreate r => exact inv_onOutboundCreate h now r
  | inDelete id => exact inv_onInboundDelete h id
  | outDelete id => exact inv_onOutboundDelete h id
  | inUpdate oldR newR =>
    exact inv_onInboundCreate (inv_onInboundDelete h oldR.id) now newR
  | outUpdate oldR newR =>
    exact inv_onOutboundCreate (inv_onOutboundDelete h oldR.id) now newR

theorem inv_applyOps {s : DBState} (h : Inv s) (now : String) (ops : List Op) :
    Inv (applyOps now ops s) := by
  induction ops generalizing s with
  | nil => exact h
  | cons op rest ih => exact ih (inv_applyOp h now op)

theorem inv_initState : Inv initState := by
  intro p
  simp [initState, projQty, ledgerSum_nil]

/-- C1: for every product and after every sequence of ledger mutations
(creates, deletes, and the updates composed from them) starting from the empty
database, the stored inventory projection quantity for that product equals the
sum of `change_qty` over all `inventoryLedger` entries for that product
(outbound entries being stored as negative deltas). -/
theorem projection_invariant (now : String) (ops : List Op) (p : String) :
    projQty (applyOps now ops initState) p =
      ledgerSum (applyOps now ops initState).ledger p :=
  inv_applyOps inv_initState now ops p

theorem onInboundCreate_inventory (now : String) (r : InboundRecord) (s : DBState) :
    (onInboundCreate now r s).inventory =
      match eventOfInbound now r with
      | none => s.inventory
      | some e => applyEvent s.inventory e := by
  rw [onInboundCreate, eventOfInbound]
  split <;> rfl

theorem onOutboundCreate_inventory (now : String) (r : OutboundRecord) (s : DBState) :
    (onOutboundCreate now r s).inventory =
      match eventOfOutbound now r with
      | none => s.inventory
      | some e => applyEvent s.inventory e := by
  rw [onOutboundCreate, eventOfOutbound]
  split <;> rfl

theorem applyOps_inventory_creates (now : String) (ops : List Op) (s : DBState)
    (hc : ∀ op ∈ ops, isCreateOp op) :
    (applyOps now ops s).inventory =
      (ops.filterMap (opEvent now)).foldl applyEvent s.inventory := by
  induction ops generalizing s with
  | nil => rfl
  | cons op rest ih =>
    have hop : isCreateOp op := hc op (List.mem_cons_self op rest)
    have hrest : ∀ op' ∈ rest, isCreateOp op' := fun op' h => hc op' (List.mem_cons_of_mem op h)
    cases op with
    | inCreate r =>
      have hstep := onInboundCreate_inventory now r s
      rw [applyOps, List.foldl_cons]
      rw [show applyOp now s (Op.inCreate r) = onInboundCreate now r s from rfl]
      have hoe : opEvent now (Op.inCreate r) = eventOfInbound now r := rfl
      rw [List.filterMap_cons, hoe]
      cases hev : eventOfInbound now r with
      | none =>
        rw [hev] at hstep
        have := ih (onInboundCreate now r s) hrest
        rw [applyOps] at this
        rw [this, hstep]
      | some e =>
        rw [hev] at hstep
        have := ih (onInboundCreate now r s) hrest
        rw [applyOps] at this
        rw [this, hstep, List.foldl_cons]
    | outCreate r =>
      have hstep := onOutboundCreate_inventory now r s
      rw [applyOps, List.foldl_cons]
      rw [show applyOp now s (Op.outCreate r) = onOutboundCreate now r s from rfl]
      have hoe : opEvent now (Op.outCreate r) = eventOfOutbound now r := rfl
      rw [List.filterMap_cons, hoe]
      cases hev : eventOfOutbound now r with
      | none =>
        rw [hev] at hstep
        have := ih (onOutboundCreate now r s) hrest
        rw [applyOps] at this
        rw [this, hstep]
      | some e =>
        rw [hev] at hstep
        have := ih (onOutboundCreate now r s) hrest
        rw [applyOps] at this
        rw [this, hstep, List.foldl_cons]
    | inDelete id => exact absurd hop (by simp [isCreateOp])
    | outDelete id => exact absurd hop (by simp [isCreateOp])
    | inUpdate oldR newR => exact absurd hop (by simp [isCreateOp])
    | outUpdate oldR newR => exact absurd hop (by simp [isCreateOp])

theorem eventsSum_nil (p : String) : eventsSum [] p = 0 := rfl

theorem eventsSum_cons (e : RebuildEvent) (es : List RebuildEvent) (p : String) :
    eventsSum (e :: es) p =
      (if e.model == p then e.qty else 0) + eventsSum es p := by
  by_cases h : e.model == p <;>
    simp [eventsSum, eventsFilter, List.filter_cons, h]

theorem foldl_applyEvent_char (es : List RebuildEvent) (t : Inventory) (p : String) :
    (es.foldl applyEvent t) p =
      if (eventsFilter es p).isEmpty then t p
      else some ((t p).getD 0 + eventsSum es p) := by
  induction es generalizing t with
  | nil => simp [eventsFilter]
  | cons e rest ih =>
    rw [List.foldl_cons, ih]
    by_cases h : e.model == p
    · have hpe : p = e.model := (beq_iff_eq.mp h).symm
      have hval : (applyEvent t e) p = some ((t p).getD 0 + e.qty) := by
        rw [applyEvent, upsertAdd, if_pos hpe, hpe]
      have hne : (eventsFilter (e :: rest) p).isEmpty = false := by
        simp [eventsFilter, List.filter_cons, h]
      rw [hne]
      by_cases hrest : (eventsFilter rest p).isEmpty
      · have hsum : eventsSum rest p = 0 := by
          rw [eventsSum, List.isEmpty_iff.mp hrest]
          rfl
        rw [if_pos hrest, hval, eventsSum_cons, if_pos h, hsum]
        norm_num
      · rw [if_neg hrest, hval, eventsSum_cons, if_pos h]
        simp only [Option.getD_some]
        rw [add_assoc]
        simp
    · have hval : (applyEvent t e) p = t p := by
        rw [applyEvent, upsertAdd, if_neg]
        intro hc
        exact absurd (beq_iff_eq.mpr hc.symm) (by simpa using h)
      have hsame : eventsFilter (e :: rest) p = eventsFilter rest p := by
        simp [eventsFilter, List.filter_cons, h]
      have hsum : eventsSum (e :: rest) p = eventsSum rest p := by
        rw [eventsSum_cons, if_neg h, zero_add]
      rw [hsame, hval, hsum]

theorem eventsFilter_perm {es es' : List RebuildEvent} (h : es.Perm es') (p : String) :
    (eventsFilter es p).Perm (eventsFilter es' p) :=
  h.filter _

theorem eventsSum_perm {es es' : List RebuildEvent} (h : es.Perm es') (p : String) :
    eventsSum es p = eventsSum es' p := by
  unfold eventsSum
  exact ((eventsFilter_perm h p).map fun e => e.qty).sum_eq

theorem eventsFilter_isEmpty_perm {es es' : List RebuildEvent} (h : es.Perm es') (p : String) :
    (eventsFilter es p).isEmpty = (eventsFilter es' p).isEmpty := by
  have hlen := (eventsFilter_perm h p).length_eq
  cases hfe : eventsFilter es p with
  | nil =>
    cases hfe' : eventsFilter es' p with
    | nil => rfl
    | cons b m =>
      rw [hfe, hfe'] at hlen
      simp at hlen
  | cons a l =>
    cases hfe' : eventsFilter es' p with
    | nil =>
      rw [hfe, hfe'] at hlen
      simp at hlen
    | cons b m => rfl

theorem foldl_applyEvent_perm {es es' : List RebuildEvent} (h : es.Perm es')
    (t : Inventory) (p : String) :
    (es.foldl applyEvent t) p = (es'.foldl applyEvent t) p := by
  rw [foldl_applyEvent_char, foldl_applyEvent_char,
    eventsFilter_isEmpty_perm h, eventsSum_perm h]

/-- C2: rebuilding from scratch with `recalculateAll` produces, for every
product, exactly the same stored projection as maintaining the projection
purely incrementally by running the reconciler create operations for the same
source records, in any order. -/
theorem rebuild_equivalence (now : String) (ins : List InboundRecord)
    (outs : List OutboundRecord) (ops : List Op)
    (hperm : ops.Perm (ins.map Op.inCreate ++ outs.map Op.outCreate)) (p : String) :
    (applyOps now ops initState).inventory p = (recalculateAll now ins outs).inventory p := by
  have hc : ∀ op ∈ ops, isCreateOp op := by
    intro op hmem
    rcases List.mem_append.mp (hperm.mem_iff.mp hmem) with hin | hout
    · rcases List.mem_map.mp hin with ⟨r, _, rfl⟩
      rfl
    · rcases List.mem_map.mp hout with ⟨r, _, rfl⟩
      rfl
  have hincr := applyOps_inventory_creates now ops initState hc
  have hinit : initState.inventory = fun _ => none := rfl
  have hev : (ins.map Op.inCreate ++ outs.map Op.outCreate).filterMap (opEvent now) =
      ins.filterMap (eventOfInbound now) ++ outs.filterMap (eventOfOutbound now) := by
    rw [List.filterMap_append, List.filterMap_map, List.filterMap_map]
    rfl
  have hperm2 : (ops.filterMap (opEvent now)).Perm
      (ins.filterMap (eventOfInbound now) ++ outs.filterMap (eventOfOutbound now)) := by
    rw [← hev]
    exact hperm.filterMap (opEvent now)
  have hperm3 : (ops.filterMap (opEvent now)).Perm
      ((ins.filterMap (eventOfInbound now) ++
        outs.filterMap (eventOfOutbound now)).mergeSort eventLe) :=
    hperm2.trans (List.mergeSort_perm _ eventLe).symm
  have hrebuild : (recalculateAll now ins outs).inventory =
      ((ins.filterMap (eventOfInbound now) ++
        outs.filterMap (eventOfOutbound now)).mergeSort eventLe).foldl applyEvent
        (fun _ => none) := rfl
  rw [hincr, hinit, hrebuild]
  exact foldl_applyEvent_perm hperm3 (fun _ => none) p

/-- Witness for C2: a one-inbound, one-outbound source table, with the
incremental operations run in the opposite order (outbound create first). -/
theorem rebuild_equivalence_witness :
    (applyOps "2024-06-01T00:00:00Z"
        [Op.outCreate ⟨2, some "P", some 3, some "2024-01-02"⟩,
          Op.inCreate ⟨1, some "P", some 5, some "2024-01-01"⟩] initState).inventory "P" =
      (recalculateAll "2024-06-01T00:00:00Z"
        [⟨1, some "P", some 5, some "2024-01-01"⟩]
        [⟨2, some "P", some 3, some "2024-01-02"⟩]).inventory "P" :=
  rebuild_equivalence "2024-06-01T00:00:00Z"
    [⟨1, some "P", some 5, some "2024-01-01"⟩]
    [⟨2, some "P", some 3, some "2024-01-02"⟩]
    [Op.outCreate ⟨2, some "P", some 3, some "2024-01-02"⟩,
      Op.inCreate ⟨1, some "P", some 5, some "2024-01-01"⟩]
    (List.Perm.swap (Op.inCreate ⟨1, some "P", some 5, some "2024-01-01"⟩)
      (Op.outCreate ⟨2, some "P", some 3, some "2024-01-02"⟩) [])
    "P"

theorem filter_not_of_filter_nil {α : Type} (f : α → Bool) (l : List α)
    (h : l.filter f = []) : (l.filter fun e => !(f e)) = l := by
  induction l with
  | nil => rfl
  | cons e rest ih =>
    rw [List.filter_cons] at h
    by_cases hf : f e
    · rw [if_pos hf] at h
      exact absurd h (List.cons_ne_nil e _)
    · rw [if_neg hf] at h
      have hf' : (!(f e)) = true := by
        simp only [Bool.not_eq_true']
        exact Bool.of_not_eq_true hf
      rw [List.filter_cons, if_pos hf', ih h]

/-- C3: the update handlers run revert and re-create as two separate committed
transactions, not one atomic transaction.  Starting from a database holding
exactly the ledger entry of inbound record 1, an `onInboundUpdate` whose
re-create transaction aborts does not leave the ledger as it was (as the claim
requires): the old entry is gone and the ledger is empty. -/
theorem update_not_atomic_on_create_failure :
    (onInboundUpdate "2024-06-01T00:00:00Z"
        ⟨1, some "X", some 5, some "2024-01-01"⟩
        ⟨1, some "X", some 7, some "2024-01-01"⟩ true
        (onInboundCreate "2024-06-01T00:00:00Z"
          ⟨1, some "X", some 5, some "2024-01-01"⟩ initState)).ledger ≠
      (onInboundCreate "2024-06-01T00:00:00Z"
        ⟨1, some "X", some 5, some "2024-01-01"⟩ initState).ledger ∧
    (onInboundUpdate "2024-06-01T00:00:00Z"
        ⟨1, some "X", some 5, some "2024-01-01"⟩
        ⟨1, some "X", some 7, some "2024-01-01"⟩ true
        (onInboundCreate "2024-06-01T00:00:00Z"
          ⟨1, some "X", some 5, some "2024-01-01"⟩ initState)).ledger = [] := by
  constructor
  · decide
  · decide

/-- C7 counterexample: an inbound record with product "X" and quantity `-5`
passes the `!record.product_model || !record.quantity` guard (only zero and
null/undefined are falsy), so `onInboundCreate` writes a ledger entry — it is
not the silent no-op the claim requires for non-positive quantities. -/
theorem negative_quantity_not_noop :
    (onInboundCreate "2024-06-01T00:00:00Z"
        ⟨1, some "X", some (-5), some "2024-01-01"⟩ initState).ledger ≠
      initState.ledger := by
  decide

/-- C7 amended: a create whose record has a missing/empty product key or an
absent or zero quantity is a silent no-op: no ledger entry is written, no
projection row is touched, and no error is raised.  (A negative quantity is
not a no-op: it writes a ledger entry with that signed quantity.) -/
theorem create_noop_on_absent_or_zero (now : String) (r : InboundRecord)
    (r' : OutboundRecord) (s : DBState)
    (hin : jsFalsyStr r.product_model || jsFalsyNum r.quantity)
    (hout : jsFalsyStr r'.product_model || jsFalsyNum r'.quantity) :
    onInboundCreate now r s = s ∧ onOutboundCreate now r' s = s := by
  constructor
  · rw [onInboundCreate, if_pos hin]
  · rw [onOutboundCreate, if_pos hout]

/-- Witness for C7: a zero-quantity inbound record and a product-less outbound
record, both no-ops on the empty database. -/
theorem create_noop_on_absent_or_zero_witness :
    onInboundCreate "2024-06-01T00:00:00Z" ⟨1, some "X", some 0, none⟩ initState =
        initState ∧
      onOutboundCreate "2024-06-01T00:00:00Z" ⟨2, none, some 3, none⟩ initState =
        initState :=
  create_noop_on_absent_or_zero "2024-06-01T00:00:00Z" ⟨1, some "X", some 0, none⟩
    ⟨2, none, some 3, none⟩ initState (by decide) (by decide)

/-- C8: each revert is a no-op per (reference id, kind): whenever a reference
id has zero matching ledger entries of the given kind, the corresponding
delete handler completes without error and leaves the whole database state —
every ledger entry and every projection row — unchanged, regardless of any
entries the same id may have of the other kind. -/
theorem revert_unknown_reference_noop (id : Nat) (s : DBState) :
    (s.ledger.filter (matchesRef id ChangeType.INBOUND) = [] →
      onInboundDelete id s = s) ∧
    (s.ledger.filter (matchesRef id ChangeType.OUTBOUND) = [] →
      onOutboundDelete id s = s) := by
  constructor
  · intro hin
    rw [onInboundDelete]
    simp only [hin, List.foldl_nil]
    rw [filter_not_of_filter_nil _ _ hin]
  · intro hout
    rw [onOutboundDelete]
    simp only [hout, List.foldl_nil]
    rw [filter_not_of_filter_nil _ _ hout]

/-- Witness for C8: reference ids that carry a ledger entry of the other kind
only.  Reverting the INBOUND contribution of id 1 — whose single entry is
OUTBOUND — changes nothing, and symmetrically for the OUTBOUND revert of id 2
whose single entry is INBOUND. -/
theorem revert_unknown_reference_noop_witness :
    onInboundDelete 1
        ⟨[⟨"X", -3, ChangeType.OUTBOUND, 1, "2024-01-01"⟩], fun _ => none⟩ =
        ⟨[⟨"X", -3, ChangeType.OUTBOUND, 1, "2024-01-01"⟩], fun _ => none⟩ ∧
      onOutboundDelete 2
        ⟨[⟨"X", 5, ChangeType.INBOUND, 2, "2024-01-01"⟩], fun _ => none⟩ =
        ⟨[⟨"X", 5, ChangeType.INBOUND, 2, "2024-01-01"⟩], fun _ => none⟩ :=
  ⟨(revert_unknown_reference_noop 1
      ⟨[⟨"X", -3, ChangeType.OUTBOUND, 1, "2024-01-01"⟩], fun _ => none⟩).1 (by decide),
    (revert_unknown_reference_noop 2
      ⟨[⟨"X", 5, ChangeType.INBOUND, 2, "2024-01-01"⟩], fun _ => none⟩).2 (by decide)⟩

/-- C9: `divide(a, b)` raises the division-by-zero error whenever the divisor
normalises to zero (a zero, null or undefined divisor), for every dividend;
being an `Except.error`, the result is never any numeric value. -/
theorem divide_by_zero_errors (a b : Option ℚ)
    (h : DecimalCalculator.decimal b = 0) :
    DecimalCalculator.divide a b = Except.error "Division by zero" := by
  rw [DecimalCalculator.divide, if_pos h]

/-- Witness for C9: dividing 5 by a null divisor errors. -/
theorem divide_by_zero_errors_witness :
    DecimalCalculator.divide (some 5) none = Except.error "Division by zero" :=
  divide_by_zero_errors (some 5) none rfl

theorem decimal_add (x y : ℚ) :
    DecimalCalculator.add (some x) (some y) = x + y := rfl

theorem decimal_multiply (x y : ℚ) :
    DecimalCalculator.multiply (some x) (some y) = x * y := rfl

theorem consume_nonpos {batches : List Batch} {need acc : ℚ} {track : Bool}
    (h : ¬ 0 < need) : consume batches need acc track = (batches, acc) := by
  rw [consume.eq_def]
  simp [h]

theorem consume_nil {need acc : ℚ} {track : Bool} :
    consume [] need acc track = ([], acc) := by
  rw [consume.eq_def]
  split <;> rfl

theorem consume_cons_pop {b : Batch} {rest : List Batch} {need acc : ℚ} {track : Bool}
    (h : 0 < need) (hle : b.quantity_remaining ≤ need) :
    consume (b :: rest) need acc track =
      consume rest (need - b.quantity_remaining)
        (if track then acc + b.quantity_remaining * b.unit_price else acc) track := by
  rw [consume.eq_def, dif_pos h]
  have hmin : min b.quantity_remaining need = b.quantity_remaining := min_eq_left hle
  simp only [hmin, sub_self, le_refl, dif_pos, decimal_add, decimal_multiply]

theorem consume_cons_stop {b : Batch} {rest : List Batch} {need acc : ℚ} {track : Bool}
    (h : 0 < need) (hlt : need < b.quantity_remaining) :
    consume (b :: rest) need acc track =
      ({ b with quantity_remaining := b.quantity_remaining - need } :: rest,
        if track then acc + need * b.unit_price else acc) := by
  rw [consume.eq_def, dif_pos h]
  have hmin : min b.quantity_remaining need = need := min_eq_right hlt.le
  simp only [hmin, decimal_add, decimal_multiply]
  rw [dif_neg (by linarith), consume_nonpos (by simp)]

theorem consume_fst_eq (batches : List Batch) (need acc acc' : ℚ) (track track' : Bool) :
    (consume batches need acc track).1 = (consume batches need acc' track').1 := by
  induction batches generalizing need acc acc' with
  | nil => rw [consume_nil, consume_nil]
  | cons b rest ih =>
    by_cases hn : 0 < need
    · by_cases hle : b.quantity_remaining ≤ need
      · rw [consume_cons_pop hn hle, consume_cons_pop hn hle]
        exact ih _ _ _
      · push_neg at hle
        rw [consume_cons_stop hn hle, consume_cons_stop hn hle]
    · rw [consume_nonpos hn, consume_nonpos hn]

theorem totalRemaining_nil : totalRemaining [] = 0 := rfl

theorem totalRemaining_cons (b : Batch) (bs : List Batch) :
    totalRemaining (b :: bs) = b.quantity_remaining + totalRemaining bs := by
  simp [totalRemaining]

theorem batchesCost_nil : batchesCost [] = 0 := rfl

theorem batchesCost_cons (b : Batch) (bs : List Batch) :
    batchesCost (b :: bs) = b.quantity_remaining * b.unit_price + batchesCost bs := by
  simp [batchesCost]

theorem totalRemaining_nonneg {bs : List Batch}
    (h : ∀ b ∈ bs, 0 < b.quantity_remaining) : 0 ≤ totalRemaining bs := by
  induction bs with
  | nil => rw [totalRemaining_nil]
  | cons b rest ih =>
    rw [totalRemaining_cons]
    have hb := h b (List.mem_cons_self b rest)
    have hr := ih fun x hx => h x (List.mem_cons_of_mem b hx)
    linarith

theorem batchesCost_nonneg {bs : List Batch}
    (hq : ∀ b ∈ bs, 0 < b.quantity_remaining)
    (hp : ∀ b ∈ bs, 0 ≤ b.unit_price) : 0 ≤ batchesCost bs := by
  induction bs with
  | nil => rw [batchesCost_nil]
  | cons b rest ih =>
    rw [batchesCost_cons]
    have h1 := hq b (List.mem_cons_self b rest)
    have h2 := hp b (List.mem_cons_self b rest)
    have h3 := ih (fun x hx => hq x (List.mem_cons_of_mem b hx))
      (fun x hx => hp x (List.mem_cons_of_mem b hx))
    nlinarith

theorem consume_exhaust {bs : List Batch} {need acc : ℚ} {track : Bool}
    (hpos : ∀ b ∈ bs, 0 < b.quantity_remaining)
    (htot : totalRemaining bs < need) :
    consume bs need acc track = ([], acc + (if track then batchesCost bs else 0)) := by
  induction bs generalizing need acc with
  | nil =>
    rw [totalRemaining_nil] at htot
    rw [consume_nil, batchesCost_nil]
    cases track <;> norm_num
  | cons b rest ih =>
    have hb := hpos b (List.mem_cons_self b rest)
    have hrest := fun x hx => hpos x (List.mem_cons_of_mem b hx)
    have hrnn := totalRemaining_nonneg hrest
    rw [totalRemaining_cons] at htot
    have hn : 0 < need := by linarith
    have hle : b.quantity_remaining ≤ need := by linarith
    rw [consume_cons_pop hn hle, ih hrest (by linarith), batchesCost_cons]
    cases track <;> simp <;> ring

theorem consume_totalRem {bs : List Batch} {need acc : ℚ} {track : Bool}
    (hpos : ∀ b ∈ bs, 0 < b.quantity_remaining) (hneed : 0 ≤ need) :
    totalRemaining (consume bs need acc track).1 =
      totalRemaining bs - min need (totalRemaining bs) := by
  induction bs generalizing need acc with
  | nil =>
    rw [consume_nil, totalRemaining_nil, min_eq_right hneed, sub_zero]
  | cons b rest ih =>
    have hb := hpos b (List.mem_cons_self b rest)
    have hrest := fun x hx => hpos x (List.mem_cons_of_mem b hx)
    have hrnn := totalRemaining_nonneg hrest
    by_cases hn : 0 < need
    · by_cases hle : b.quantity_remaining ≤ need
      · rw [consume_cons_pop hn hle, ih hrest (by linarith), totalRemaining_cons]
        rcases le_total need (b.quantity_remaining + totalRemaining rest) with hc | hc
        · rw [min_eq_left hc, min_eq_left (by linarith)]
          ring
        · rw [min_eq_right hc, min_eq_right (by linarith)]
          ring
      · push_neg at hle
        rw [consume_cons_stop hn hle, totalRemaining_cons, totalRemaining_cons,
          min_eq_left (by linarith : need ≤ b.quantity_remaining + totalRemaining rest)]
        show b.quantity_remaining - need + totalRemaining rest =
          b.quantity_remaining + totalRemaining rest - need
        ring
    · rw [consume_nonpos hn]
      have h0 : need = 0 := le_antisymm (not_lt.mp hn) hneed
      have hnn : 0 ≤ totalRemaining (b :: rest) := totalRemaining_nonneg hpos
      rw [h0, min_eq_left hnn, sub_zero]

theorem toNumber_nonneg (q : ℚ) (dp : Nat) (h : 0 ≤ q) :
    0 ≤ DecimalCalculator.toNumber q dp := by
  rw [DecimalCalculator.toNumber, if_pos h]
  apply div_nonneg
  · have h1 : (0 : ℚ) ≤ q * (10 : ℚ) ^ dp + 1 / 2 := by positivity
    have h2 : (0 : ℤ) ≤ ⌊q * (10 : ℚ) ^ dp + 1 / 2⌋ := Int.le_floor.mpr (by exact_mod_cast h1)
    exact_mod_cast h2
  · positivity

theorem fetchInbound_sorted_id (tbl : List FifoInboundRow)
    (hfil : (tbl.filter fun r =>
      match r.quantity with
      | some q => decide (0 < q)
      | none => false) = tbl)
    (hs : List.Pairwise
      (fun a b => rowKeyLe a.inbound_date a.id b.inbound_date b.id = true) tbl) :
    fetchInbound tbl = tbl := by
  rw [fetchInbound, hfil]
  exact List.mergeSort_of_sorted hs

theorem fetchOutbound_sorted_id (endDate : String) (tbl : List FifoOutboundRow)
    (hfil : (tbl.filter fun r =>
      (match r.quantity with
        | some q => decide (0 < q)
        | none => false) &&
      (match r.outbound_date with
        | some d => decide (d ≤ endDate)
        | none => false)) = tbl)
    (hs : List.Pairwise
      (fun a b => rowKeyLe a.outbound_date a.id b.outbound_date b.id = true) tbl) :
    fetchOutbound endDate tbl = tbl := by
  rw [fetchOutbound, hfil]
  exact List.mergeSort_of_sorted hs

theorem processOutbound_inventoryState (startDate endDate : String)
    (codeMap shortMap : String → Option Partner) (st : FifoState)
    (r : FifoOutboundRow)
    (hguard : (jsFalsyStr r.product_model || jsFalsyNum r.quantity) = false) :
    (processOutbound startDate endDate codeMap shortMap st r).inventoryState =
      fun m =>
        if m = r.product_model.getD "" then
          (consume (st.inventoryState (r.product_model.getD "")) (r.quantity.getD 0) 0
            (isTargetB startDate endDate r &&
              (resolvePartner codeMap shortMap r).isSome)).1
        else st.inventoryState m := by
  rw [processOutbound, hguard]
  rfl

theorem processOutbound_processedRecords (startDate endDate : String)
    (codeMap shortMap : String → Option Partner) (st : FifoState)
    (r : FifoOutboundRow)
    (hguard : (jsFalsyStr r.product_model || jsFalsyNum r.quantity) = false) :
    (processOutbound startDate endDate codeMap shortMap st r).processedRecords =
      match resolvePartner codeMap shortMap r, isTargetB startDate endDate r with
      | some pr, true =>
        st.processedRecords ++
          [{ id := r.id
             product_model := r.product_model
             quantity := r.quantity
             outbound_date := r.outbound_date
             unit_price := r.unit_price
             total_price := r.total_price
             customer_code := r.customer_code
             customer_short_name := r.customer_short_name
             cost_amount := DecimalCalculator.toNumber
               (consume (st.inventoryState (r.product_model.getD ""))
                 (r.quantity.getD 0) 0
                 (isTargetB startDate endDate r &&
                   (resolvePartner codeMap shortMap r).isSome)).2 2
             sales_amount := r.total_price.getD 0
             customer_full_name := pr.full_name
             resolved_customer_code := pr.code }]
      | _, _ => st.processedRecords := by
  rw [processOutbound, hguard]
  rfl

theorem processOutbound_guarded (startDate endDate : String)
    (codeMap shortMap : String → Option Partner) (st : FifoState)
    (r : FifoOutboundRow)
    (hguard : (jsFalsyStr r.product_model || jsFalsyNum r.quantity) = true) :
    processOutbound startDate endDate codeMap shortMap st r = st := by
  rw [processOutbound, hguard]
  rfl

theorem toList_le {a b : String} (h : a.toList ≤ b.toList) : a ≤ b :=
  String.le_iff_toList_le.mpr h

theorem toList_lt {a b : String} (h : a.toList < b.toList) : a < b :=
  String.lt_iff_toList_lt.mpr h

theorem isTargetB_true_of (startDate endDate d : String) (r : FifoOutboundRow)
    (hd : r.outbound_date = some d) (h1 : startDate ≤ d) (h2 : d ≤ endDate) :
    isTargetB startDate endDate r = true := by
  rw [isTargetB, hd]
  show (decide (startDate ≤ d) && decide (d ≤ endDate)) = true
  rw [decide_eq_true h1, decide_eq_true h2]
  rfl

/-- C6: when an outbound record's quantity exceeds the total remaining
quantity of its product's FIFO queue, consumption stops at queue exhaustion:
the queue is left empty, the record's cost is the rounded sum over only the
available batch quantities times their unit costs (the uncovered remainder
contributes nothing), and with nonnegative unit costs this cost is never
negative. -/
theorem fifo_oversell (startDate endDate : String)
    (codeMap shortMap : String → Option Partner) (st : FifoState)
    (r : FifoOutboundRow) (pm : String) (q : ℚ) (pr : Partner)
    (hpm : r.product_model = some pm) (hpmne : ¬ pm = "")
    (hq : r.quantity = some q)
    (hpos : ∀ b ∈ st.inventoryState pm, 0 < b.quantity_remaining)
    (hprices : ∀ b ∈ st.inventoryState pm, 0 ≤ b.unit_price)
    (htot : totalRemaining (st.inventoryState pm) < q)
    (htarget : isTargetB startDate endDate r = true)
    (hpartner : resolvePartner codeMap shortMap r = some pr) :
    (processOutbound startDate endDate codeMap shortMap st r).inventoryState pm = [] ∧
      (processOutbound startDate endDate codeMap shortMap st r).processedRecords =
        st.processedRecords ++
          [{ id := r.id
             product_model := r.product_model
             quantity := r.quantity
             outbound_date := r.outbound_date
             unit_price := r.unit_price
             total_price := r.total_price
             customer_code := r.customer_code
             customer_short_name := r.customer_short_name
             cost_amount := DecimalCalculator.toNumber
               (batchesCost (st.inventoryState pm)) 2
             sales_amount := r.total_price.getD 0
             customer_full_name := pr.full_name
             resolved_customer_code := pr.code }] ∧
      0 ≤ DecimalCalculator.toNumber (batchesCost (st.inventoryState pm)) 2 := by
  have hq0 : 0 < q := lt_of_le_of_lt (totalRemaining_nonneg hpos) htot
  have hguard : (jsFalsyStr r.product_model || jsFalsyNum r.quantity) = false := by
    rw [hpm, hq]
    simp [jsFalsyStr, jsFalsyNum, hpmne, hq0.ne']
  have hgetpm : r.product_model.getD "" = pm := by
    rw [hpm]
    rfl
  have hgetq : r.quantity.getD 0 = q := by
    rw [hq]
    rfl
  have htrack : (isTargetB startDate endDate r &&
      (resolvePartner codeMap shortMap r).isSome) = true := by
    rw [htarget, hpartner]
    rfl
  have hcons := @consume_exhaust (st.inventoryState pm) q 0 true hpos htot
  refine ⟨?_, ?_, ?_⟩
  · rw [processOutbound_inventoryState startDate endDate codeMap shortMap st r hguard]
    simp only
    rw [hgetpm, hgetq, htrack, if_pos rfl, hcons]
  · rw [processOutbound_processedRecords startDate endDate codeMap shortMap st r hguard,
      hpartner, htarget]
    simp only
    rw [hgetpm, hgetq, show (true && (some pr).isSome) = true from rfl, hcons]
    simp
  · exact toNumber_nonneg _ 2 (batchesCost_nonneg hpos hprices)

/-- Witness for C6: an outbound of quantity 15 against an empty queue (total
available 0) inside the window with a resolvable partner leaves the queue
empty. -/
theorem fifo_oversell_witness :
    (processOutbound "2024-01-01" "2024-12-31"
        (fun k => if k = "C" then some ⟨some "C", none, some "Customer"⟩ else none)
        (fun _ => none)
        ⟨fun _ => [], []⟩
        ⟨7, some "P", some 15, some "2024-06-01", none, some 180, some "C", none⟩).inventoryState
      "P" = [] :=
  (fifo_oversell "2024-01-01" "2024-12-31"
    (fun k => if k = "C" then some ⟨some "C", none, some "Customer"⟩ else none)
    (fun _ => none)
    ⟨fun _ => [], []⟩
    ⟨7, some "P", some 15, some "2024-06-01", none, some 180, some "C", none⟩
    "P" 15 ⟨some "C", none, some "Customer"⟩
    rfl (by decide) rfl (by simp) (by simp) (by decide)
    (isTargetB_true_of "2024-01-01" "2024-12-31" "2024-06-01" _ rfl
      (toList_le (by decide)) (toList_le (by decide))) rfl).1

/-- C10: an in-window outbound record whose customer code and short name both
fail to resolve still depletes the product queue by its full fulfillable
quantity (min of requested quantity and total available), but produces no
output row. -/
theorem fifo_unresolved_partner (startDate endDate : String)
    (codeMap shortMap : String → Option Partner) (st : FifoState)
    (r : FifoOutboundRow) (pm : String) (q : ℚ)
    (hpm : r.product_model = some pm) (hpmne : ¬ pm = "")
    (hq : r.quantity = some q) (hq0 : 0 < q)
    (hpos : ∀ b ∈ st.inventoryState pm, 0 < b.quantity_remaining)
    (htarget : isTargetB startDate endDate r = true)
    (hpartner : resolvePartner codeMap shortMap r = none) :
    (processOutbound startDate endDate codeMap shortMap st r).processedRecords =
        st.processedRecords ∧
      totalRemaining
          ((processOutbound startDate endDate codeMap shortMap st r).inventoryState pm) =
        totalRemaining (st.inventoryState pm) -
          min q (totalRemaining (st.inventoryState pm)) := by
  have hguard : (jsFalsyStr r.product_model || jsFalsyNum r.quantity) = false := by
    rw [hpm, hq]
    simp [jsFalsyStr, jsFalsyNum, hpmne, hq0.ne']
  have hgetpm : r.product_model.getD "" = pm := by
    rw [hpm]
    rfl
  have hgetq : r.quantity.getD 0 = q := by
    rw [hq]
    rfl
  constructor
  · rw [processOutbound_processedRecords startDate endDate codeMap shortMap st r hguard,
      hpartner, htarget]
  · rw [processOutbound_inventoryState startDate endDate codeMap shortMap st r hguard]
    simp only
    rw [hgetpm, hgetq, if_pos rfl]
    exact @consume_totalRem (st.inventoryState pm) q 0 _ hpos hq0.le

/-- Witness for C10: an in-window outbound whose customer fields resolve to no
partner emits no output row. -/
theorem fifo_unresolved_partner_witness :
    (processOutbound "2024-01-01" "2024-12-31" (fun _ => none) (fun _ => none)
        ⟨fun _ => [], []⟩
        ⟨7, some "P", some 15, some "2024-06-01", none, some 180, some "CX", none⟩).processedRecords =
      ([] : List ProcessedRecord) :=
  (fifo_unresolved_partner "2024-01-01" "2024-12-31" (fun _ => none) (fun _ => none)
    ⟨fun _ => [], []⟩
    ⟨7, some "P", some 15, some "2024-06-01", none, some 180, some "CX", none⟩
    "P" 15 rfl (by decide) rfl (by decide) (by simp)
    (isTargetB_true_of "2024-01-01" "2024-12-31" "2024-06-01" _ rfl
      (toList_le (by decide)) (toList_le (by decide))) rfl).1

/-- C5: an outbound record dated before `startDate` (with any state and
partner maps) produces no output row, yet advances the per-product queues
exactly as the same record dated inside the window would; and any record
dated after `endDate` is excluded from the fetched outbound list entirely. -/
theorem fifo_window_exclusion (startDate endDate : String)
    (codeMap shortMap : String → Option Partner) (st : FifoState)
    (r : FifoOutboundRow) (d d' : String) (tbl : List FifoOutboundRow)
    (r2 : FifoOutboundRow) (e : String)
    (hdate : r.outbound_date = some d) (hlt : d < startDate)
    (hd1 : startDate ≤ d') (hd2 : d' ≤ endDate)
    (h2 : r2.outbound_date = some e) (he : endDate < e) :
    (processOutbound startDate endDate codeMap shortMap st r).processedRecords =
        st.processedRecords ∧
      (processOutbound startDate endDate codeMap shortMap st r).inventoryState =
        (processOutbound startDate endDate codeMap shortMap st
          { r with outbound_date := some d' }).inventoryState ∧
      r2 ∉ fetchOutbound endDate tbl := by
  have hT : isTargetB startDate endDate r = false := by
    rw [isTargetB, hdate]
    simp [not_le.mpr hlt]
  refine ⟨?_, ?_, ?_⟩
  · by_cases hg : (jsFalsyStr r.product_model || jsFalsyNum r.quantity) = true
    · rw [processOutbound_guarded startDate endDate codeMap shortMap st r hg]
    · have hg' : (jsFalsyStr r.product_model || jsFalsyNum r.quantity) = false :=
        Bool.eq_false_iff.mpr hg
      rw [processOutbound_processedRecords startDate endDate codeMap shortMap st r hg', hT]
      cases hrp : resolvePartner codeMap shortMap r <;> rfl
  · by_cases hg : (jsFalsyStr r.product_model || jsFalsyNum r.quantity) = true
    · have hg2 : (jsFalsyStr ({ r with outbound_date := some d' } :
          FifoOutboundRow).product_model ||
          jsFalsyNum ({ r with outbound_date := some d' } : FifoOutboundRow).quantity) =
          true := hg
      rw [processOutbound_guarded startDate endDate codeMap shortMap st r hg,
        processOutbound_guarded startDate endDate codeMap shortMap st _ hg2]
    · have hg' : (jsFalsyStr r.product_model || jsFalsyNum r.quantity) = false :=
        Bool.eq_false_iff.mpr hg
      have hg2' : (jsFalsyStr ({ r with outbound_date := some d' } :
          FifoOutboundRow).product_model ||
          jsFalsyNum ({ r with outbound_date := some d' } : FifoOutboundRow).quantity) =
          false := hg'
      rw [processOutbound_inventoryState startDate endDate codeMap shortMap st r hg',
        processOutbound_inventoryState startDate endDate codeMap shortMap st _ hg2']
      funext m
      dsimp only
      by_cases hm : m = r.product_model.getD ""
      · rw [if_pos hm, if_pos hm]
        exact consume_fst_eq _ _ _ _ _ _
      · rw [if_neg hm, if_neg hm]
  · intro hmem
    rw [fetchOutbound] at hmem
    have hmem2 := List.mem_mergeSort.mp hmem
    have hcond := (List.mem_filter.mp hmem2).2
    rw [h2] at hcond
    rcases Bool.and_eq_true_iff.mp hcond with ⟨hc1, hc2⟩
    exact absurd (of_decide_eq_true hc2) (not_le.mpr he)

/-- Witness for C5: a pre-window outbound emits no output row; a record dated
after the window end is not fetched. -/
theorem fifo_window_exclusion_witness :
    ((processOutbound "2024-02-01" "2024-12-31" (fun _ => none) (fun _ => none)
        ⟨fun _ => [], []⟩
        ⟨3, some "P", some 4, some "2024-01-15", none, some 20, none, none⟩).processedRecords =
      ([] : List ProcessedRecord)) ∧
      ⟨9, some "P", some 4, some "2025-01-05", none, some 20, none, none⟩ ∉
        fetchOutbound "2024-12-31"
          [⟨9, some "P", some 4, some "2025-01-05", none, some 20, none, none⟩] :=
  ⟨(fifo_window_exclusion "2024-02-01" "2024-12-31" (fun _ => none) (fun _ => none)
      ⟨fun _ => [], []⟩
      ⟨3, some "P", some 4, some "2024-01-15", none, some 20, none, none⟩
      "2024-01-15" "2024-06-01"
      [⟨9, some "P", some 4, some "2025-01-05", none, some 20, none, none⟩]
      ⟨9, some "P", some 4, some "2025-01-05", none, some 20, none, none⟩
      "2025-01-05" rfl (toList_lt (by decide)) (toList_le (by decide))
      (toList_le (by decide)) rfl (toList_lt (by decide))).1,
    (fifo_window_exclusion "2024-02-01" "2024-12-31" (fun _ => none) (fun _ => none)
      ⟨fun _ => [], []⟩
      ⟨3, some "P", some 4, some "2024-01-15", none, some 20, none, none⟩
      "2024-01-15" "2024-06-01"
      [⟨9, some "P", some 4, some "2025-01-05", none, some 20, none, none⟩]
      ⟨9, some "P", some 4, some "2025-01-05", none, some 20, none, none⟩
      "2025-01-05" rfl (toList_lt (by decide)) (toList_le (by decide))
      (toList_le (by decide)) rfl (toList_lt (by decide))).2.2⟩

theorem filter_singleton_of_pos {α : Type} (p : α → Bool) (a : α) (h : p a = true) :
    [a].filter p = [a] := by
  simp [List.filter_cons, h]

/-- C4: with inbound batches of quantity 10 at unit cost 5 dated D1 and
quantity 10 at unit cost 8 dated D2 (D1 < D2), and one outbound of quantity
15 dated D3 > D2 inside the window with a resolvable partner, the FIFO
matcher assigns the outbound a cost of 10*5 + 5*8 = 90, consuming the older
batch fully before the newer one. -/
theorem fifo_determinism :
    (calculateFIFOData "2024-01-01" "2024-12-31"
        [⟨1, some "2024-01-01", some "P", some 10, some 5⟩,
          ⟨2, some "2024-01-02", some "P", some 10, some 8⟩]
        [⟨7, some "P", some 15, some "2024-01-03", some 12, some 180, some "C", none⟩]
        [⟨some "C", some "Cust", some "Customer One"⟩]).map
      (fun row => row.cost_amount) = [90] := by
  have hpair : List.Pairwise
      (fun (a b : FifoInboundRow) =>
        rowKeyLe a.inbound_date a.id b.inbound_date b.id = true)
      [⟨1, some "2024-01-01", some "P", some 10, some 5⟩,
        ⟨2, some "2024-01-02", some "P", some 10, some 8⟩] := by
    refine List.Pairwise.cons ?_ (List.pairwise_singleton _ _)
    intro b hb
    rw [List.mem_singleton] at hb
    subst hb
    rw [rowKeyLe, if_neg (by decide)]
    show decide (("2024-01-01" : String) ≤ "2024-01-02") = true
    rw [decide_eq_true (toList_le (by decide))]
  have hin : fetchInbound
      [⟨1, some "2024-01-01", some "P", some 10, some 5⟩,
        ⟨2, some "2024-01-02", some "P", some 10, some 8⟩] =
      [⟨1, some "2024-01-01", some "P", some 10, some 5⟩,
        ⟨2, some "2024-01-02", some "P", some 10, some 8⟩] :=
    fetchInbound_sorted_id _ (by decide) hpair
  have hcond : ((fun (r : FifoOutboundRow) =>
      (match r.quantity with
        | some q => decide (0 < q)
        | none => false) &&
      (match r.outbound_date with
        | some d => decide (d ≤ "2024-12-31")
        | none => false))
      ⟨7, some "P", some 15, some "2024-01-03", some 12, some 180, some "C", none⟩) =
      true := by
    show (decide ((0 : ℚ) < 15) && decide (("2024-01-03" : String) ≤ "2024-12-31")) = true
    rw [decide_eq_true (toList_le (by decide))]
    decide
  have hout : fetchOutbound "2024-12-31"
      [⟨7, some "P", some 15, some "2024-01-03", some 12, some 180, some "C", none⟩] =
      [⟨7, some "P", some 15, some "2024-01-03", some 12, some 180, some "C", none⟩] :=
    fetchOutbound_sorted_id _ _ (filter_singleton_of_pos _ _ hcond)
      (List.pairwise_singleton _ _)
  have hcons : consume [⟨10, 5⟩, ⟨10, 8⟩] 15 0 true = ([⟨5, 8⟩], 90) := by
    rw [consume_cons_pop (by norm_num) (by norm_num)]
    norm_num
    rw [consume_cons_stop (by norm_num) (by norm_num)]
    norm_num
  have hit : isTargetB "2024-01-01" "2024-12-31"
      ⟨7, some "P", some 15, some "2024-01-03", some 12, some 180, some "C", none⟩ =
      true :=
    isTargetB_true_of _ _ "2024-01-03" _ rfl (toList_le (by decide)) (toList_le (by decide))
  have hrp : resolvePartner
      (buildPartnerMap (fun p => p.code) [⟨some "C", some "Cust", some "Customer One"⟩])
      (buildPartnerMap (fun p => p.short_name) [⟨some "C", some "Cust", some "Customer One"⟩])
      ⟨7, some "P", some 15, some "2024-01-03", some 12, some 180, some "C", none⟩ =
      some ⟨some "C", some "Cust", some "Customer One"⟩ := rfl
  have hseed : seedInventory
      [⟨1, some "2024-01-01", some "P", some 10, some 5⟩,
        ⟨2, some "2024-01-02", some "P", some 10, some 8⟩] "P" =
      [⟨10, 5⟩, ⟨10, 8⟩] := rfl
  have h90 : DecimalCalculator.toNumber 90 2 = 90 := by
    rw [DecimalCalculator.toNumber, if_pos (by norm_num)]
    norm_num
  simp only [calculateFIFOData]
  rw [hin, hout, List.foldl_cons, List.foldl_nil]
  rw [processOutbound_processedRecords _ _ _ _ _ _ (by decide)]
  rw [hrp, hit]
  simp only [Option.getD_some]
  rw [hseed]
  rw [show (true && (some (⟨some "C", some "Cust", some "Customer One"⟩ : Partner)).isSome) =
    true from rfl]
  rw [hcons]
  simp only [List.nil_append, List.map_cons, List.map_nil]
  rw [h90]

end Tradeflow
